import Mathlib

/-!
Verification of the sankee sampling-to-Sankey reformatting pipeline.

The definitions below are a shallow embedding of the data-transformation
code in `sankee/plotting.py` (class `SankeyPlot`), `sankee/sampling.py`
(`generate_sample_data`) and the legacy `sankee/utils.py`
(`check_for_missing_values`).  Sample tables are rectangular lists of
integer class codes (one row per sample point, one column per period),
pandas dataframes of edges become lists of `Edge` records, and the pandas
group-by/sort operations are modelled with explicit sorting and counting
on lists.  Rational numbers stand in for the float proportions, so all
arithmetic is exact.
-/

/-- A sampled data table: the column labels (one per period, in time order)
and the rows of integer class codes, mirroring the pandas `DataFrame`
produced by `generate_sample_data` after `dropna().astype(int)`. -/
structure Table where
  cols : List String
  rows : List (List Int)
deriving DecidableEq

/-- Rectangularity of a sample table: every row has one value per column. -/
def Table.wf (t : Table) : Prop := ∀ r ∈ t.rows, r.length = t.cols.length

/-- Row filter applied by `SankeyPlot._generate_dataframe` when `self.hide`
is nonempty: a row is dropped when any of its columns holds a hidden class
(`pd.concat([(data == i).any(axis=1) for i in self.hide]).any(axis=1)`). -/
def hideFilter (hide : List Int) (rows : List (List Int)) : List (List Int) :=
  rows.filter (fun r => decide (∀ v ∈ r, v ∉ hide))

/-- Row filter applied by `generate_sample_data` (sampling.py line 81) when
`include` is given: `data = data[data.isin(include).all(axis=1)]`, keeping
only the rows whose every value is a member of the include list. -/
def includeFilter (incl : List Int) (rows : List (List Int)) : List (List Int) :=
  rows.filter (fun r => decide (∀ v ∈ r, v ∈ incl))

/-- Modelled from the spec: `utils.pairwise` is used by
`SankeyPlot._generate_dataframe` but the revision of `sankee/utils.py`
that defines it is not in the sources; the spec fixes its meaning as
iteration over "every adjacent pair of period columns".  It is the
standard `itertools.pairwise`: `pairwise l = zip l l[1:]`. -/
def pairwise (l : List α) : List (α × α) := l.zip (l.drop 1)

/-- One key of the grouped transition dataframe: the four grouping fields
`source_year, target_year, source, target` of
`SankeyPlot._generate_dataframe`. -/
structure Key where
  sy : String
  ty : String
  s : Int
  t : Int
deriving DecidableEq

/-- The flat list of `(source_year, target_year, source, target)` tuples
built by the `permutations` loop of `SankeyPlot._generate_dataframe`:
for each adjacent column pair, one tuple per retained row.  Column access
is positional, which matches the label-based pandas access because
`sankify` enforces unique column labels. -/
def permutations (t : Table) (hide : List Int) : List Key :=
  let data := hideFilter hide t.rows
  (pairwise (List.range t.cols.length)).flatMap (fun ij =>
    data.map (fun r =>
      { sy := t.cols.getD ij.1 "", ty := t.cols.getD ij.2 "",
        s := r.getD ij.1 0, t := r.getD ij.2 0 }))

/-- Deduplication keeping the first occurrence of each element, as pandas
`drop_duplicates` does. -/
def dedupFirst [DecidableEq α] : List α → List α
  | [] => []
  | a :: l => a :: (dedupFirst l).filter (fun b => decide (b ≠ a))

/-- Code-point lexicographic comparison of character lists, the order
Python uses on strings (and hence pandas on the period labels). -/
def charListLt : List Char → List Char → Bool
  | [], [] => false
  | [], _ :: _ => true
  | _ :: _, [] => false
  | a :: as, b :: bs => if a < b then true else if b < a then false else charListLt as bs

/-- Code-point lexicographic order on strings. -/
def strLt (a b : String) : Bool := charListLt a.data b.data

/-- Ascending lexicographic order on the four grouping fields: the order in
which `df.groupby(["source_year", "target_year", "source", "target"])`
sorts its group keys (string order on the period labels, integer order on
the class codes). -/
def keyLe (a b : Key) : Bool :=
  if a.sy ≠ b.sy then strLt a.sy b.sy
  else if a.ty ≠ b.ty then strLt a.ty b.ty
  else if a.s ≠ b.s then decide (a.s < b.s)
  else decide (a.t ≤ b.t)

/-- The `groupby(...).size()` step: the distinct keys in ascending order,
each paired with the number of tuples that fell into its group. -/
def groupCount (keys : List Key) : List (Key × Nat) :=
  (List.insertionSort (fun a b => keyLe a b = true) (dedupFirst keys)).map
    (fun k => (k, keys.countP (fun b => decide (b = k))))

/-- The `total` column of `SankeyPlot._generate_dataframe`:
`df.groupby(["source_year", "source"]).changed.transform("sum")`, the
summed counts of all groups sharing this group's source year and source
class. -/
def totalFor (raw : List (Key × Nat)) (sy : String) (s : Int) : Nat :=
  ((raw.filter (fun kc => decide (kc.1.sy = sy ∧ kc.1.s = s))).map Prod.snd).sum

/-- One aggregated transition edge: a row of the dataframe returned by
`SankeyPlot._generate_dataframe` (the label/color columns are joined
separately, and the `proportion` column is recovered exactly by
`Edge.proportion` below). -/
structure Edge where
  source_year : String
  target_year : String
  source : Int
  target : Int
  changed : Nat
  total : Nat
deriving DecidableEq

/-- The `proportion` column: `df["changed"] / df["total"]`, in exact
rational arithmetic. -/
def Edge.proportion (e : Edge) : ℚ := (e.changed : ℚ) / (e.total : ℚ)

/-- Build one `Edge` from a grouped key and its count, attaching the group
total. -/
def mkEdge (raw : List (Key × Nat)) (kc : Key × Nat) : Edge :=
  { source_year := kc.1.sy, target_year := kc.1.ty,
    source := kc.1.s, target := kc.1.t,
    changed := kc.2, total := totalFor raw kc.1.sy kc.1.s }

/-- The formatted transition dataframe of `SankeyPlot._generate_dataframe`:
group the per-row tuples of every adjacent column pair, count them, and
attach the per-(source year, source class) totals. -/
def generate_dataframe (t : Table) (hide : List Int) : List Edge :=
  let raw := groupCount (permutations t hide)
  raw.map (mkEdge raw)

/-- Source (period, class) pair of an edge row, the fields selected into
`source_df` by `SankeyPlot._generate_plot_parameters`. -/
def srcPair (e : Edge) : String × Int := (e.source_year, e.source)

/-- Target (period, class) pair of an edge row, the fields selected into
`target_df` by `SankeyPlot._generate_plot_parameters`. -/
def tgtPair (e : Edge) : String × Int := (e.target_year, e.target)

/-- The `all_classes` frame before `drop_duplicates` in
`SankeyPlot._generate_plot_parameters`: `pd.concat([source_df, target_df])`,
all source pairs of the edge list followed by all target pairs. -/
def allPairs (t : Table) (hide : List Int) : List (String × Int) :=
  (generate_dataframe t hide).map srcPair ++ (generate_dataframe t hide).map tgtPair

/-- The deduplicated node list `all_classes.drop_duplicates()`. -/
def nodePairList (t : Table) (hide : List Int) : List (String × Int) :=
  dedupFirst (allPairs t hide)

/-- Position of the first occurrence of an element in a list (the length
of the list when absent). -/
def idxOfD [DecidableEq α] (a : α) : List α → Nat
  | [] => 0
  | b :: l => if b = a then 0 else idxOfD a l + 1

/-- The sequential node id assigned by
`all_classes.groupby(["year", "class"], sort=False).ngroup()`: with
`sort=False`, group numbers are assigned in first-appearance order, which
on the already deduplicated list is simply the list position. -/
def nodeId (t : Table) (hide : List Int) (p : String × Int) : Nat :=
  idxOfD p (nodePairList t hide)

/-- The (period, class) pairs observed in the (possibly filtered) table:
for each retained row, its value in each period column. -/
def observedPairs (t : Table) (hide : List Int) : List (String × Int) :=
  (hideFilter hide t.rows).flatMap (fun r => t.cols.zip r)

/-- The size of a (period, class) node in the sense of the spec: the
number of retained sample rows exhibiting that class in that period. -/
def pairSize (t : Table) (hide : List Int) (p : String × Int) : Nat :=
  (observedPairs t hide).countP (fun q => decide (q = p))

/-- Round a rational to the nearest integer with halves to even, the
rounding used by Python format strings such as `f"{x:.0%}"`. -/
def roundHalfEven (q : ℚ) : ℤ :=
  let f := ⌊q⌋
  if q - f < 1/2 then f
  else if (1/2 : ℚ) < q - f then f + 1
  else if f % 2 = 0 then f else f + 1

/-- The percent formatting `f"{x:.0%}"`: multiply by 100, round to a whole
percent, append a percent sign. -/
def formatPct (q : ℚ) : String := toString (roundHalfEven (q * 100)) ++ "%"

/-- Class-code → string lookup `self.labels[k]` / `self.palette[k]`
(association list in dictionary insertion order; class codes appearing in
sampled data always have entries, so the default is unused). -/
def lookupStr (m : List (Int × String)) (k : Int) : String :=
  match m.find? (fun e => decide (e.1 = k)) with
  | some e => e.2
  | none => ""

/-- The `build_link_label` closure of `SankeyPlot._generate_dataframe`:
`f"<b>{pct}</b> of <b>{row.source_label}</b> {verb} <b>{row.target_label}</b>"`
with `verb = "remained"` if `row.source == row.target` else `"became"`.
The closure's early exit for a zero-width row can only fire when the edge
frame is empty, in which case no labels are produced at all; mapping over
the edge list makes that guard moot. -/
def build_link_label (labels : List (Int × String)) (e : Edge) : String :=
  let verb := if e.source = e.target then "remained" else "became"
  let pct := formatPct e.proportion
  "<b>" ++ pct ++ "</b> of <b>" ++ lookupStr labels e.source ++ "</b> " ++ verb
    ++ " <b>" ++ lookupStr labels e.target ++ "</b>"

/-- A column of the sample table, as `data.iteritems()` yields them. -/
def tableColumn (t : Table) (i : Nat) : List Int := t.rows.map (fun r => r.getD i 0)

/-- `utils.get_missing_keys`: the values of the list that are not keys of
the dictionary. -/
def get_missing_keys (keyList : List Int) (keyDict : List (Int × String)) : List Int :=
  keyList.filter (fun k => decide (k ∉ keyDict.map Prod.fst))

/-- Sorted deduplication: `np.unique` returns the sorted distinct values. -/
def npUnique (l : List Int) : List Int :=
  List.insertionSort (· ≤ ·) (dedupFirst l)

/-- The two failure cases of the legacy compatibility check, carrying the
class codes interpolated into the raised exception's message. -/
inductive CheckError where
  | missingLabels (codes : List Int)
  | missingPalette (codes : List Int)
deriving DecidableEq

/-- The legacy `utils.check_for_missing_values` (sankee/utils.py lines
60-79): walk the columns, collect the values missing from the labels and
from the palette, and raise (`some error`) reporting `np.unique` of the
collected values, labels first; `none` means the check passed. -/
def check_for_missing_values (t : Table) (labels palette : List (Int × String)) :
    Option CheckError :=
  let missing_labels := (List.range t.cols.length).flatMap
    (fun i => get_missing_keys (tableColumn t i) labels)
  let missing_palette := (List.range t.cols.length).flatMap
    (fun i => get_missing_keys (tableColumn t i) palette)
  if missing_labels ≠ [] then some (.missingLabels (npUnique missing_labels))
  else if missing_palette ≠ [] then some (.missingPalette (npUnique missing_palette))
  else none

/-- A `(key, label, color)` triple as produced by
`zip(labels.keys(), labels.values(), palette.values())` in
`SankeyPlot._merge_duplicate_classes`. -/
abbrev Triple := Int × String × String

/-- The `(color, label)` pair used as the `running_map` key. -/
def pairOf (tr : Triple) : String × String := (tr.2.2, tr.2.1)

/-- Zip the labels dictionary with the palette values into the triples the
merge loop iterates over. -/
def mkTriples (labels palette : List (Int × String)) : List Triple :=
  (labels.zip (palette.map Prod.snd)).map (fun e => (e.1.1, e.1.2, e.2))

/-- The loop of `SankeyPlot._merge_duplicate_classes`: build the running
map from (color, label) pairs to the first value carrying that pair, and
the remap from every later value to that first value. -/
def mergeLoop : List Triple → List ((String × String) × Int) → List (Int × Int) →
    List ((String × String) × Int) × List (Int × Int)
  | [], running, remap => (running, remap)
  | tr :: rest, running, remap =>
    match running.find? (fun e => decide (e.1 = pairOf tr)) with
    | some e => mergeLoop rest running (remap ++ [(tr.1, e.2)])
    | none => mergeLoop rest (running ++ [(pairOf tr, tr.1)]) remap

/-- `data.replace(remap)`: every cell holding a key of the remap dictionary
is replaced by its image, all other cells are kept (pandas `replace` is a
single-pass substitution, not chained). -/
def applyRemap (remap : List (Int × Int)) (v : Int) : Int :=
  match remap.find? (fun e => decide (e.1 = v)) with
  | some e => e.2
  | none => v

/-- `SankeyPlot._merge_duplicate_classes`: the remapped data, the merged
labels and the merged palette. -/
def merge_duplicate_classes (data : List (List Int)) (labels palette : List (Int × String)) :
    List (List Int) × List (Int × String) × List (Int × String) :=
  let rr := mergeLoop (mkTriples labels palette) [] []
  let palette' := rr.1.map (fun e => (e.2, e.1.1))
  let labels' := rr.1.map (fun e => (e.2, e.1.2))
  (data.map (fun r => r.map (applyRemap rr.2)), labels', palette')

/-- Declarative merge target used to state the merge claim: the first key
in dictionary order whose (color, label) pair coincides with the pair of
`v`; values without a labels entry are unchanged. -/
def canon (triples : List Triple) (v : Int) : Int :=
  (((triples.find? (fun tr => decide (tr.1 = v))).bind (fun tr =>
      triples.find? (fun tr2 => decide (pairOf tr2 = pairOf tr)))).map
    (fun fst => fst.1)).getD v

/-- An Earth Engine image, abstracted to the only attribute the region
fallback of `sankify` reads: its footprint geometry. -/
structure EEImage where
  geometry : String
deriving DecidableEq

/-- The region fallback at the top of `sankify` (plotting.py lines 94-95):
`if region is None: region = image_list[0].geometry()`.  The result is the
concrete region handed on to `generate_sample_data`; with an empty image
list and no region the Python code fails with an IndexError, modelled by
`none`. -/
def sankify_region (region : Option String) (image_list : List EEImage) : Option String :=
  match region with
  | some r => some r
  | none => image_list.head?.map EEImage.geometry

/-- Scenario A of the spec: two periods, six sample rows,
start = [1,1,1,2,2,4], end = [1,1,1,2,3,4]. -/
def scenarioA : Table :=
  { cols := ["start", "end"],
    rows := [[1, 1], [1, 1], [1, 1], [2, 2], [2, 3], [4, 4]] }

/-- Scenario A's label map {1: "A", 2: "B", 3: "C", 4: "D"}. -/
def labelsA : List (Int × String) := [(1, "A"), (2, "B"), (3, "C"), (4, "D")]

/-- A palette covering Scenario A's label map's keys. -/
def paletteA : List (Int × String) :=
  [(1, "#ff0000"), (2, "#00ff00"), (3, "#0000ff"), (4, "#ffffff")]

/-! ### Basic properties of the deduplication and the column pairing -/

theorem mem_dedupFirst [DecidableEq α] {a : α} {l : List α} :
    a ∈ dedupFirst l ↔ a ∈ l := by
  induction l with
  | nil => exact Iff.rfl
  | cons b l ih =>
    simp only [dedupFirst, List.mem_cons, List.mem_filter, ih, decide_eq_true_eq]
    constructor
    · rintro (rfl | ⟨h, _⟩)
      · exact Or.inl rfl
      · exact Or.inr h
    · rintro (rfl | h)
      · exact Or.inl rfl
      · by_cases hab : a = b
        · exact Or.inl hab
        · exact Or.inr ⟨h, hab⟩

theorem nodup_dedupFirst [DecidableEq α] (l : List α) : (dedupFirst l).Nodup := by
  induction l with
  | nil => exact List.nodup_nil
  | cons b l ih =>
    rw [dedupFirst, List.nodup_cons]
    refine ⟨fun hb => ?_, ih.filter _⟩
    have := (List.mem_filter.mp hb).2
    simp at this

theorem idxOfD_cons_self [DecidableEq α] (a : α) (l : List α) : idxOfD a (a :: l) = 0 := by
  simp [idxOfD]

theorem idxOfD_cons_ne [DecidableEq α] {a b : α} (l : List α) (h : b ≠ a) :
    idxOfD a (b :: l) = idxOfD a l + 1 := by
  simp [idxOfD, h]

theorem idxOfD_lt_length [DecidableEq α] {a : α} {l : List α} (h : a ∈ l) :
    idxOfD a l < l.length := by
  induction l with
  | nil => cases h
  | cons b l ih =>
    by_cases hb : b = a
    · simp [idxOfD, hb]
    · rw [idxOfD_cons_ne l hb]
      have hmem : a ∈ l := by
        rcases List.mem_cons.mp h with h1 | h1
        · exact absurd h1.symm hb
        · exact h1
      simpa using ih hmem

theorem getElem_idxOfD [DecidableEq α] {a : α} {l : List α} (h : a ∈ l)
    (hlt : idxOfD a l < l.length) : l[idxOfD a l] = a := by
  induction l with
  | nil => cases h
  | cons b l ih =>
    by_cases hb : b = a
    · simp [idxOfD, hb]
    · have hmem : a ∈ l := by
        rcases List.mem_cons.mp h with h1 | h1
        · exact absurd h1.symm hb
        · exact h1
      have hlt2 : idxOfD a l < l.length := idxOfD_lt_length hmem
      have := ih hmem hlt2
      simp [idxOfD, hb, this]

theorem idxOfD_inj [DecidableEq α] {l : List α} {x y : α} (hx : x ∈ l) (hy : y ∈ l) :
    idxOfD x l = idxOfD y l ↔ x = y := by
  induction l with
  | nil => cases hx
  | cons b l ih =>
    by_cases hbx : b = x <;> by_cases hby : b = y
    · subst hbx
      constructor
      · intro _
        exact hby
      · intro _
        rw [← hby]
    · subst hbx
      rw [idxOfD_cons_self, idxOfD_cons_ne l hby]
      constructor
      · intro h0
        exact absurd h0.symm (Nat.succ_ne_zero _)
      · intro hxy
        exact absurd (hxy ▸ rfl) hby
    · subst hby
      rw [idxOfD_cons_self, idxOfD_cons_ne l hbx]
      constructor
      · intro h0
        exact absurd h0 (Nat.succ_ne_zero _)
      · intro hxy
        exact absurd (hxy ▸ rfl) hbx
    · have hx2 : x ∈ l := by
        rcases List.mem_cons.mp hx with h1 | h1
        · exact absurd h1.symm hbx
        · exact h1
      have hy2 : y ∈ l := by
        rcases List.mem_cons.mp hy with h1 | h1
        · exact absurd h1.symm hby
        · exact h1
      rw [idxOfD_cons_ne l hbx, idxOfD_cons_ne l hby, Nat.add_right_cancel_iff]
      exact ih hx2 hy2

theorem pairwise_rank_dedupFirst [DecidableEq α] (l : List α) :
    (dedupFirst l).Pairwise (fun p q => idxOfD p l < idxOfD q l) := by
  induction l with
  | nil => exact List.Pairwise.nil
  | cons b l ih =>
    rw [dedupFirst]
    refine List.Pairwise.cons ?_ ?_
    · intro q hq
      have hqb : q ≠ b := by
        have := (List.mem_filter.mp hq).2
        simpa using this
      rw [idxOfD_cons_self, idxOfD_cons_ne l (Ne.symm hqb)]
      exact Nat.succ_pos _
    · refine List.Pairwise.imp_of_mem ?_ (ih.filter _)
      intro p q hp hq hlt
      have hpb : p ≠ b := by
        have := (List.mem_filter.mp hp).2
        simpa using this
      have hqb : q ≠ b := by
        have := (List.mem_filter.mp hq).2
        simpa using this
      rw [idxOfD_cons_ne l (Ne.symm hpb), idxOfD_cons_ne l (Ne.symm hqb)]
      exact Nat.succ_lt_succ hlt

theorem idxOfD_dedupFirst_lt_iff [DecidableEq α] {l : List α} {p q : α}
    (hp : p ∈ l) (hq : q ∈ l) :
    idxOfD p (dedupFirst l) < idxOfD q (dedupFirst l) ↔ idxOfD p l < idxOfD q l := by
  have hpL : p ∈ dedupFirst l := mem_dedupFirst.mpr hp
  have hqL : q ∈ dedupFirst l := mem_dedupFirst.mpr hq
  have hpw := (List.pairwise_iff_getElem).mp (pairwise_rank_dedupFirst l)
  constructor
  · intro hlt
    have h1 : idxOfD p (dedupFirst l) < (dedupFirst l).length := idxOfD_lt_length hpL
    have h2 : idxOfD q (dedupFirst l) < (dedupFirst l).length := idxOfD_lt_length hqL
    have := hpw _ _ h1 h2 hlt
    rwa [getElem_idxOfD hpL h1, getElem_idxOfD hqL h2] at this
  · intro hlt
    rcases Nat.lt_trichotomy (idxOfD p (dedupFirst l)) (idxOfD q (dedupFirst l)) with h | h | h
    · exact h
    · exfalso
      have hpq : p = q := (idxOfD_inj hpL hqL).mp h
      subst hpq
      exact Nat.lt_irrefl _ hlt
    · exfalso
      have h1 : idxOfD q (dedupFirst l) < (dedupFirst l).length := idxOfD_lt_length hqL
      have h2 : idxOfD p (dedupFirst l) < (dedupFirst l).length := idxOfD_lt_length hpL
      have := hpw _ _ h1 h2 h
      rw [getElem_idxOfD hqL h1, getElem_idxOfD hpL h2] at this
      exact absurd hlt (Nat.lt_asymm this)

theorem pairwise_range (k : Nat) :
    pairwise (List.range k) = (List.range (k - 1)).map (fun i => (i, i + 1)) := by
  apply List.ext_getElem
  · simp only [pairwise, List.length_zip, List.length_drop, List.length_range, List.length_map]
    omega
  · intro i h1 h2
    simp only [pairwise, List.getElem_zip, List.getElem_drop, List.getElem_range,
      List.getElem_map]
    rw [Nat.add_comm]

theorem mem_pairwise_range {k i j : Nat} :
    (i, j) ∈ pairwise (List.range k) ↔ j = i + 1 ∧ i + 1 < k := by
  rw [pairwise_range]
  simp only [List.mem_map, List.mem_range, Prod.mk.injEq]
  constructor
  · rintro ⟨m, hm, rfl, rfl⟩
    omega
  · rintro ⟨rfl, h⟩
    exact ⟨i, by omega, rfl, rfl⟩

/-! ### Membership characterizations of the pipeline stages -/

theorem mem_hideFilter {hide : List Int} {rows : List (List Int)} {r : List Int} :
    r ∈ hideFilter hide rows ↔ r ∈ rows ∧ ∀ v ∈ r, v ∉ hide := by
  simp [hideFilter]

theorem hideFilter_nil (rows : List (List Int)) : hideFilter [] rows = rows := by
  simp [hideFilter]

theorem mem_permutations {t : Table} {hide : List Int} {κ : Key} :
    κ ∈ permutations t hide ↔ ∃ i, i + 1 < t.cols.length ∧
      ∃ r ∈ hideFilter hide t.rows,
        κ = { sy := t.cols.getD i "", ty := t.cols.getD (i + 1) "",
              s := r.getD i 0, t := r.getD (i + 1) 0 } := by
  unfold permutations
  simp only [List.mem_flatMap, List.mem_map]
  constructor
  · rintro ⟨⟨i, j⟩, hij, r, hr, rfl⟩
    obtain ⟨rfl, hk⟩ := mem_pairwise_range.mp hij
    exact ⟨i, hk, r, hr, rfl⟩
  · rintro ⟨i, hk, r, hr, rfl⟩
    exact ⟨(i, i + 1), mem_pairwise_range.mpr ⟨rfl, hk⟩, r, hr, rfl⟩

theorem mem_groupCount {keys : List Key} {kc : Key × Nat} :
    kc ∈ groupCount keys ↔
      kc.1 ∈ keys ∧ kc.2 = keys.countP (fun b => decide (b = kc.1)) := by
  unfold groupCount
  simp only [List.mem_map]
  constructor
  · rintro ⟨k, hk, rfl⟩
    have hk2 : k ∈ dedupFirst keys := (List.perm_insertionSort _ _).mem_iff.mp hk
    exact ⟨mem_dedupFirst.mp hk2, rfl⟩
  · rintro ⟨h1, h2⟩
    refine ⟨kc.1, (List.perm_insertionSort _ _).mem_iff.mpr (mem_dedupFirst.mpr h1), ?_⟩
    exact Prod.ext rfl h2.symm

theorem mem_generate_dataframe {t : Table} {hide : List Int} {e : Edge} :
    e ∈ generate_dataframe t hide ↔
      ∃ kc ∈ groupCount (permutations t hide),
        e = mkEdge (groupCount (permutations t hide)) kc := by
  unfold generate_dataframe
  simp only [List.mem_map]
  constructor
  · rintro ⟨kc, hkc, rfl⟩
    exact ⟨kc, hkc, rfl⟩
  · rintro ⟨kc, hkc, rfl⟩
    exact ⟨kc, hkc, rfl⟩

theorem mem_allPairs {t : Table} {hide : List Int} {p : String × Int} :
    p ∈ allPairs t hide ↔
      ∃ κ ∈ permutations t hide, (κ.sy, κ.s) = p ∨ (κ.ty, κ.t) = p := by
  unfold allPairs
  simp only [List.mem_append, List.mem_map, mem_generate_dataframe]
  constructor
  · rintro (⟨e, ⟨kc, hkc, rfl⟩, rfl⟩ | ⟨e, ⟨kc, hkc, rfl⟩, rfl⟩)
    · exact ⟨kc.1, (mem_groupCount.mp hkc).1, Or.inl rfl⟩
    · exact ⟨kc.1, (mem_groupCount.mp hkc).1, Or.inr rfl⟩
  · rintro ⟨κ, hκ, hcase | hcase⟩
    · refine Or.inl ⟨mkEdge (groupCount (permutations t hide))
        (κ, (permutations t hide).countP (fun b => decide (b = κ))), ?_, hcase⟩
      exact ⟨(κ, _), mem_groupCount.mpr ⟨hκ, rfl⟩, rfl⟩
    · refine Or.inr ⟨mkEdge (groupCount (permutations t hide))
        (κ, (permutations t hide).countP (fun b => decide (b = κ))), ?_, hcase⟩
      exact ⟨(κ, _), mem_groupCount.mpr ⟨hκ, rfl⟩, rfl⟩

theorem mem_observedPairs {t : Table} {hide : List Int} {p : String × Int} (hwf : t.wf) :
    p ∈ observedPairs t hide ↔
      ∃ r ∈ hideFilter hide t.rows, ∃ n, n < t.cols.length ∧
        p = (t.cols.getD n "", r.getD n 0) := by
  unfold observedPairs
  simp only [List.mem_flatMap]
  constructor
  · rintro ⟨r, hr, hp⟩
    have hlen : r.length = t.cols.length := hwf r (mem_hideFilter.mp hr).1
    obtain ⟨n, hn, he⟩ := List.mem_iff_getElem.mp hp
    rw [List.length_zip, hlen, Nat.min_self] at hn
    refine ⟨r, hr, n, hn, ?_⟩
    rw [List.getElem_zip] at he
    rw [← he]
    have h1 : n < t.cols.length := hn
    have h2 : n < r.length := by omega
    rw [List.getD_eq_getElem _ _ h1, List.getD_eq_getElem _ _ h2]
  · rintro ⟨r, hr, n, hn, rfl⟩
    have hlen : r.length = t.cols.length := hwf r (mem_hideFilter.mp hr).1
    refine ⟨r, hr, ?_⟩
    have hzip : n < (t.cols.zip r).length := by
      rw [List.length_zip, hlen, Nat.min_self]; exact hn
    rw [List.mem_iff_getElem]
    refine ⟨n, hzip, ?_⟩
    rw [List.getElem_zip]
    have h2 : n < r.length := by omega
    rw [List.getD_eq_getElem _ _ hn, List.getD_eq_getElem _ _ h2]

/-! ### Proportions of a source group sum to one -/

theorem list_sum_map_div (l : List ℚ) (c : ℚ) :
    (l.map (fun x => x / c)).sum = l.sum / c := by
  induction l with
  | nil => simp
  | cons a l ih => simp [ih, add_div]

theorem totalFor_pos {keys : List Key} {sy : String} {v : Int}
    (hex : ∃ κ ∈ keys, κ.sy = sy ∧ κ.s = v) :
    0 < totalFor (groupCount keys) sy v := by
  obtain ⟨κ, hκ, hsy, hs⟩ := hex
  have hkc : (κ, keys.countP (fun b => decide (b = κ))) ∈ groupCount keys :=
    mem_groupCount.mpr ⟨hκ, rfl⟩
  have hfil : (κ, keys.countP (fun b => decide (b = κ))) ∈
      (groupCount keys).filter (fun kc => decide (kc.1.sy = sy ∧ kc.1.s = v)) := by
    rw [List.mem_filter]
    exact ⟨hkc, by simp [hsy, hs]⟩
  have hmem : keys.countP (fun b => decide (b = κ)) ∈
      ((groupCount keys).filter (fun kc => decide (kc.1.sy = sy ∧ kc.1.s = v))).map Prod.snd :=
    List.mem_map.mpr ⟨_, hfil, rfl⟩
  have hle := List.single_le_sum (l := ((groupCount keys).filter
      (fun kc => decide (kc.1.sy = sy ∧ kc.1.s = v))).map Prod.snd)
    (fun x _ => Nat.zero_le x) _ hmem
  have hpos : 0 < keys.countP (fun b => decide (b = κ)) :=
    List.countP_pos_iff.mpr ⟨κ, hκ, by simp⟩
  unfold totalFor
  omega

theorem sum_counts_div (l : List (Key × Nat)) (T : ℚ) :
    (l.map (fun kc => (kc.2 : ℚ) / T)).sum = ((l.map Prod.snd).sum : ℚ) / T := by
  induction l with
  | nil => simp
  | cons a l ih => simp [ih, add_div]

theorem group_proportions_sum_one (t : Table) (hide : List Int) (sy : String) (v : Int)
    (hex : ∃ κ ∈ permutations t hide, κ.sy = sy ∧ κ.s = v) :
    (((generate_dataframe t hide).filter
        (fun e => decide (e.source_year = sy ∧ e.source = v))).map Edge.proportion).sum = 1 := by
  have hfm : (generate_dataframe t hide).filter
      (fun e => decide (e.source_year = sy ∧ e.source = v)) =
      ((groupCount (permutations t hide)).filter
        (fun kc => decide (kc.1.sy = sy ∧ kc.1.s = v))).map
        (mkEdge (groupCount (permutations t hide))) := by
    unfold generate_dataframe
    rw [List.filter_map]
    rfl
  rw [hfm, List.map_map]
  have hcongr : ∀ kc ∈ (groupCount (permutations t hide)).filter
      (fun kc => decide (kc.1.sy = sy ∧ kc.1.s = v)),
      (Edge.proportion ∘ mkEdge (groupCount (permutations t hide))) kc =
        (fun kc : Key × Nat =>
          (kc.2 : ℚ) / (totalFor (groupCount (permutations t hide)) sy v : ℚ)) kc := by
    intro kc hkc
    have hp := (List.mem_filter.mp hkc).2
    rw [decide_eq_true_eq] at hp
    simp only [Function.comp, Edge.proportion, mkEdge, hp.1, hp.2]
  rw [List.map_congr_left hcongr, sum_counts_div]
  have hsum : (((groupCount (permutations t hide)).filter
      (fun kc => decide (kc.1.sy = sy ∧ kc.1.s = v))).map Prod.snd).sum =
      totalFor (groupCount (permutations t hide)) sy v := rfl
  rw [hsum]
  have hpos := totalFor_pos hex
  have hne : ((totalFor (groupCount (permutations t hide)) sy v : ℚ)) ≠ 0 := by
    exact_mod_cast Nat.pos_iff_ne_zero.mp hpos
  exact div_self hne

/-! ### Node pairs are exactly the observed (period, class) pairs -/

theorem mem_nodePairList_iff_observed {t : Table} {hide : List Int}
    (hwf : t.wf) (hk : 2 ≤ t.cols.length) {p : String × Int} :
    p ∈ nodePairList t hide ↔ p ∈ observedPairs t hide := by
  rw [nodePairList, mem_dedupFirst, mem_allPairs, mem_observedPairs hwf]
  constructor
  · rintro ⟨κ, hκ, hcase⟩
    obtain ⟨i, hi, r, hr, rfl⟩ := mem_permutations.mp hκ
    rcases hcase with h | h
    · exact ⟨r, hr, i, by omega, h.symm⟩
    · exact ⟨r, hr, i + 1, hi, h.symm⟩
  · rintro ⟨r, hr, n, hn, rfl⟩
    by_cases hlast : n + 1 < t.cols.length
    · refine ⟨_, mem_permutations.mpr ⟨n, hlast, r, hr, rfl⟩, Or.inl rfl⟩
    · have hn1 : 1 ≤ n := by omega
      have heq : (n - 1) + 1 = n := by omega
      refine ⟨_, mem_permutations.mpr ⟨n - 1, by omega, r, hr, rfl⟩, Or.inr ?_⟩
      rw [heq]

/-! ### The merge loop computes the first-occurrence remap -/

/-- What the remap dictionary holds once the merge loop has consumed the
triples `done`: a key whose (color, label) pair already occurred at an
earlier key maps to that first key; first-occurring keys and unknown
values have no entry. -/
def remapSpec (done : List Triple) (v : Int) : Option (Int × Int) :=
  (done.find? (fun tr => decide (tr.1 = v))).bind (fun tr =>
    (done.find? (fun tr2 => decide (pairOf tr2 = pairOf tr))).bind (fun fst =>
      if fst.1 = v then none else some (v, fst.1)))

theorem remapSpec_none {done : List Triple} {v : Int}
    (h : done.find? (fun tr => decide (tr.1 = v)) = none) : remapSpec done v = none := by
  unfold remapSpec
  rw [h, Option.none_bind]

theorem mergeLoop_remap_inv (todo : List Triple) :
    ∀ (done : List Triple) (running : List ((String × String) × Int)) (remap : List (Int × Int)),
    ((done ++ todo).map (fun tr => tr.1)).Nodup →
    (∀ lc, running.find? (fun e => decide (e.1 = lc)) =
      (done.find? (fun tr => decide (pairOf tr = lc))).map (fun tr => (lc, tr.1))) →
    (∀ w, remap.find? (fun e => decide (e.1 = w)) = remapSpec done w) →
    ∀ w, (mergeLoop todo running remap).2.find? (fun e => decide (e.1 = w)) =
      remapSpec (done ++ todo) w := by
  induction todo with
  | nil =>
    intro done running remap hnd hrun hremap w
    rw [mergeLoop, List.append_nil]
    exact hremap w
  | cons tr rest ih =>
    intro done running remap hnd hrun hremap w
    have hfresh : ∀ tr0 ∈ done, tr0.1 ≠ tr.1 := by
      intro tr0 h0 heq
      rw [List.map_append, List.nodup_append] at hnd
      exact hnd.2.2 (List.mem_map_of_mem _ h0) (by simp [heq])
    have hdone_none : done.find? (fun tr0 => decide (tr0.1 = tr.1)) = none :=
      List.find?_eq_none.mpr (fun x hx => by simp [hfresh x hx])
    have hnd' : (((done ++ [tr]) ++ rest).map (fun tr => tr.1)).Nodup := by
      rw [← List.append_cons]; exact hnd
    have hsingle_self : List.find? (fun tr0 => decide (tr0.1 = tr.1)) [tr] = some tr := by
      simp [List.find?]
    cases hcaseA : done.find? (fun tr2 => decide (pairOf tr2 = pairOf tr)) with
    | some tr0 =>
      have htr0mem : tr0 ∈ done := List.mem_of_find?_eq_some hcaseA
      have hrun_tr : running.find? (fun e => decide (e.1 = pairOf tr)) =
          some (pairOf tr, tr0.1) := by
        rw [hrun (pairOf tr), hcaseA]; rfl
      simp only [mergeLoop, hrun_tr]
      rw [List.append_cons done tr rest]
      refine ih (done ++ [tr]) running (remap ++ [(tr.1, tr0.1)]) hnd' ?_ ?_ w
      · intro lc
        rw [List.find?_append, hrun lc]
        cases hd : done.find? (fun tr2 => decide (pairOf tr2 = lc)) with
        | some x => simp
        | none =>
          have hne : ¬ (pairOf tr = lc) := by
            intro h
            rw [h] at hcaseA
            rw [hcaseA] at hd
            exact Option.noConfusion hd
          simp [List.find?, hne]
      · intro v
        rw [List.find?_append, hremap v]
        by_cases hv : v = tr.1
        · rw [hv, remapSpec_none hdone_none, Option.none_or]
          have hs : List.find? (fun e => decide (e.1 = tr.1)) [(tr.1, tr0.1)] =
              some (tr.1, tr0.1) := by simp [List.find?]
          rw [hs]
          unfold remapSpec
          rw [List.find?_append, hdone_none, Option.none_or, hsingle_self, Option.some_bind,
            List.find?_append, hcaseA, Option.or_some, Option.some_bind,
            if_neg (hfresh tr0 htr0mem)]
        · have hne : tr.1 ≠ v := fun h => hv h.symm
          have hs : List.find? (fun e => decide (e.1 = v)) [(tr.1, tr0.1)] = none := by
            simp [List.find?, hne]
          rw [hs, Option.or_none]
          unfold remapSpec
          rw [List.find?_append]
          have h2 : List.find? (fun tr0 => decide (tr0.1 = v)) [tr] = none := by
            simp [List.find?, hne]
          rw [h2, Option.or_none]
          cases hdv : done.find? (fun tr0 => decide (tr0.1 = v)) with
          | none => rfl
          | some trv =>
            rw [Option.some_bind, Option.some_bind]
            have htrv : trv ∈ done := List.mem_of_find?_eq_some hdv
            have hsome : (done.find? (fun tr2 => decide (pairOf tr2 = pairOf trv))).isSome := by
              rw [List.find?_isSome]
              exact ⟨trv, htrv, by simp⟩
            obtain ⟨wv, hwv⟩ := Option.isSome_iff_exists.mp hsome
            rw [List.find?_append, hwv, Option.or_some]
    | none =>
      have hrun_tr : running.find? (fun e => decide (e.1 = pairOf tr)) = none := by
        rw [hrun (pairOf tr), hcaseA]; rfl
      simp only [mergeLoop, hrun_tr]
      rw [List.append_cons done tr rest]
      refine ih (done ++ [tr]) (running ++ [(pairOf tr, tr.1)]) remap hnd' ?_ ?_ w
      · intro lc
        rw [List.find?_append, hrun lc, List.find?_append]
        by_cases hlc : pairOf tr = lc
        · have h1 : done.find? (fun tr2 => decide (pairOf tr2 = lc)) = none := by
            rw [← hlc]; exact hcaseA
          rw [h1]
          have h2 : List.find? (fun e => decide (e.1 = lc)) [(pairOf tr, tr.1)] =
              some (pairOf tr, tr.1) := by simp [List.find?, hlc]
          have h3 : List.find? (fun tr2 => decide (pairOf tr2 = lc)) [tr] = some tr := by
            simp [List.find?, hlc]
          rw [h2, h3]
          simp [hlc]
        · have h2 : List.find? (fun e => decide (e.1 = lc)) [(pairOf tr, tr.1)] = none := by
            simp [List.find?, hlc]
          have h3 : List.find? (fun tr2 => decide (pairOf tr2 = lc)) [tr] = none := by
            simp [List.find?, hlc]
          rw [h2, h3, Option.or_none, Option.or_none]
      · intro v
        rw [hremap v]
        by_cases hv : v = tr.1
        · rw [hv, remapSpec_none hdone_none]
          unfold remapSpec
          rw [List.find?_append, hdone_none, Option.none_or, hsingle_self, Option.some_bind,
            List.find?_append, hcaseA, Option.none_or]
          have h3 : List.find? (fun tr2 => decide (pairOf tr2 = pairOf tr)) [tr] = some tr := by
            simp [List.find?]
          rw [h3, Option.some_bind, if_pos rfl]
        · have hne : tr.1 ≠ v := fun h => hv h.symm
          unfold remapSpec
          rw [List.find?_append]
          have h2 : List.find? (fun tr0 => decide (tr0.1 = v)) [tr] = none := by
            simp [List.find?, hne]
          rw [h2, Option.or_none]
          cases hdv : done.find? (fun tr0 => decide (tr0.1 = v)) with
          | none => rfl
          | some trv =>
            rw [Option.some_bind, Option.some_bind]
            have htrv : trv ∈ done := List.mem_of_find?_eq_some hdv
            have hsome : (done.find? (fun tr2 => decide (pairOf tr2 = pairOf trv))).isSome := by
              rw [List.find?_isSome]
              exact ⟨trv, htrv, by simp⟩
            obtain ⟨wv, hwv⟩ := Option.isSome_iff_exists.mp hsome
            rw [List.find?_append, hwv, Option.or_some]

theorem applyRemap_eq_canon (labels palette : List (Int × String))
    (hkeys : labels.map Prod.fst = palette.map Prod.fst)
    (hnodup : (labels.map Prod.fst).Nodup) (v : Int) :
    applyRemap (mergeLoop (mkTriples labels palette) [] []).2 v =
      canon (mkTriples labels palette) v := by
  have hlen : labels.length ≤ (palette.map Prod.snd).length := by
    have := congrArg List.length hkeys
    simp only [List.length_map] at this ⊢
    omega
  have hkeysT : (mkTriples labels palette).map (fun tr => tr.1) = labels.map Prod.fst := by
    unfold mkTriples
    rw [List.map_map]
    have h1 : (labels.zip (palette.map Prod.snd)).map
        ((fun tr : Triple => tr.1) ∘ (fun e : (Int × String) × String => (e.1.1, e.1.2, e.2))) =
        (labels.zip (palette.map Prod.snd)).map (Prod.fst ∘ Prod.fst) := rfl
    rw [h1, ← List.map_map, List.map_fst_zip labels (palette.map Prod.snd) hlen]
  have hnd0 : ((([] : List Triple) ++ mkTriples labels palette).map (fun tr => tr.1)).Nodup := by
    rw [List.nil_append, hkeysT]
    exact hnodup
  have hrun0 : ∀ lc, (List.find? (fun e => decide (e.1 = lc))
      ([] : List ((String × String) × Int))) =
      (List.find? (fun tr => decide (pairOf tr = lc)) ([] : List Triple)).map
        (fun tr => (lc, tr.1)) := by
    intro lc; rfl
  have hremap0 : ∀ w, (List.find? (fun e => decide (e.1 = w)) ([] : List (Int × Int))) =
      remapSpec [] w := by
    intro w; rfl
  have hfind := mergeLoop_remap_inv (mkTriples labels palette) [] [] [] hnd0 hrun0 hremap0 v
  rw [List.nil_append] at hfind
  have happ : applyRemap (mergeLoop (mkTriples labels palette) [] []).2 v =
      ((remapSpec (mkTriples labels palette) v).map Prod.snd).getD v := by
    unfold applyRemap
    rw [hfind]
    cases remapSpec (mkTriples labels palette) v with
    | none => rfl
    | some e => rfl
  rw [happ]
  unfold remapSpec canon
  cases hf : (mkTriples labels palette).find? (fun tr => decide (tr.1 = v)) with
  | none => rfl
  | some tr =>
    rw [Option.some_bind, Option.some_bind]
    cases hf2 : (mkTriples labels palette).find? (fun tr2 => decide (pairOf tr2 = pairOf tr)) with
    | none => rfl
    | some fst =>
      rw [Option.some_bind]
      by_cases hfst : fst.1 = v
      · rw [if_pos hfst]
        simp [hfst]
      · rw [if_neg hfst]
        rfl

theorem merge_data_eq_canon (data : List (List Int)) (labels palette : List (Int × String))
    (hkeys : labels.map Prod.fst = palette.map Prod.fst)
    (hnodup : (labels.map Prod.fst).Nodup) :
    (merge_duplicate_classes data labels palette).1 =
      data.map (fun r => r.map (canon (mkTriples labels palette))) := by
  have h0 : (merge_duplicate_classes data labels palette).1 =
      data.map (fun r => r.map (applyRemap (mergeLoop (mkTriples labels palette) [] []).2)) := rfl
  have hfun : applyRemap (mergeLoop (mkTriples labels palette) [] []).2 =
      canon (mkTriples labels palette) :=
    funext (applyRemap_eq_canon labels palette hkeys hnodup)
  rw [h0, hfun]

/-! ### Concrete evaluation helpers for Scenario A -/

/-- Scenario A's aggregated edge list, computed once and shared. -/
theorem scenarioA_df : generate_dataframe scenarioA [] =
    [{ source_year := "start", target_year := "end", source := 1, target := 1,
       changed := 3, total := 3 },
     { source_year := "start", target_year := "end", source := 2, target := 2,
       changed := 1, total := 2 },
     { source_year := "start", target_year := "end", source := 2, target := 3,
       changed := 1, total := 2 },
     { source_year := "start", target_year := "end", source := 4, target := 4,
       changed := 1, total := 1 }] := by decide

theorem roundHalfEven_intCast (n : ℤ) : roundHalfEven (n : ℚ) = n := by
  simp [roundHalfEven]

theorem formatPct_int (q : ℚ) (n : ℤ) (h : q * 100 = (n : ℚ)) :
    formatPct q = toString n ++ "%" := by
  rw [formatPct, h, roundHalfEven_intCast]

/-- Scenario A's four link labels, as the code renders them. -/
theorem scenarioA_link_labels :
    (generate_dataframe scenarioA []).map (build_link_label labelsA) =
      ["<b>100%</b> of <b>A</b> remained <b>A</b>",
       "<b>50%</b> of <b>B</b> remained <b>B</b>",
       "<b>50%</b> of <b>B</b> became <b>C</b>",
       "<b>100%</b> of <b>D</b> remained <b>D</b>"] := by
  rw [scenarioA_df]
  simp only [List.map_cons, List.map_nil, build_link_label]
  norm_num [Edge.proportion, formatPct_int 1 100 (by norm_num),
    formatPct_int (1/2) 50 (by norm_num)]
  decide

/-! ### The claims -/

/-- C1 (counterexample): on Scenario A the (end, 1) node is observed in 3
sample rows while the (start, 2) node is observed in only 2, yet (end, 1)
receives the strictly larger sequential id 3 versus 1 — so node ids are
not assigned in descending order of each pair's observed sample count. -/
theorem C1_counterexample :
    pairSize scenarioA [] ("end", 1) = 3 ∧ pairSize scenarioA [] ("start", 2) = 2 ∧
    nodeId scenarioA [] ("end", 1) = 3 ∧ nodeId scenarioA [] ("start", 2) = 1 := by
  exact ⟨by decide, by decide, by decide, by decide⟩

/-- C1 (amended): the Node Indexer assigns sequential ids in order of first
appearance of each (period, class) pair in the edge-derived sequence (all
source pairs of the aggregated edge list, then all target pairs), with no
regard to observed sample counts: one pair's id is smaller than another's
exactly when its first appearance in that sequence comes earlier. -/
theorem C1_amended (t : Table) (hide : List Int) (p q : String × Int)
    (hp : p ∈ allPairs t hide) (hq : q ∈ allPairs t hide) :
    nodeId t hide p < nodeId t hide q ↔
      idxOfD p (allPairs t hide) < idxOfD q (allPairs t hide) :=
  idxOfD_dedupFirst_lt_iff hp hq

/-- C1 (witness): the amended ordering applied to two concrete Scenario A
nodes. -/
theorem C1_witness :
    (("start", (1 : Int)) ∈ allPairs scenarioA []) ∧
    (("start", (2 : Int)) ∈ allPairs scenarioA []) ∧
    (nodeId scenarioA [] ("start", 1) < nodeId scenarioA [] ("start", 2) ↔
      idxOfD ("start", (1 : Int)) (allPairs scenarioA []) <
        idxOfD ("start", (2 : Int)) (allPairs scenarioA [])) :=
  ⟨by decide, by decide,
    C1_amended scenarioA [] ("start", 1) ("start", 2) (by decide) (by decide)⟩

/-- C2: on Scenario A the Transition Aggregator produces exactly the four
edges (1→1, count 3, proportion 1), (2→2, count 1, proportion 1/2),
(2→3, count 1, proportion 1/2), (4→4, count 1, proportion 1): rows are
grouped by (source value, target value), counted, and each count is
divided by the total count of rows whose source column holds that source
class. -/
theorem C2_scenarioA_edges :
    generate_dataframe scenarioA [] =
      [{ source_year := "start", target_year := "end", source := 1, target := 1,
         changed := 3, total := 3 },
       { source_year := "start", target_year := "end", source := 2, target := 2,
         changed := 1, total := 2 },
       { source_year := "start", target_year := "end", source := 2, target := 3,
         changed := 1, total := 2 },
       { source_year := "start", target_year := "end", source := 4, target := 4,
         changed := 1, total := 1 }] ∧
    (generate_dataframe scenarioA []).map Edge.proportion = [1, 1/2, 1/2, 1] := by
  refine ⟨scenarioA_df, ?_⟩
  rw [scenarioA_df]
  simp [Edge.proportion]

/-- C3: for every table (no missing values by construction), every adjacent
period pair and every class v occurring at least once in the earlier
column, the proportions of all aggregated edges whose source node is that
(period, v) pair sum to exactly 1 in exact rational arithmetic. -/
theorem C3_proportions_sum_one (t : Table) (i : Nat) (v : Int)
    (hcol : i + 1 < t.cols.length) (hocc : ∃ r ∈ t.rows, r.getD i 0 = v) :
    (((generate_dataframe t []).filter
        (fun e => decide (e.source_year = t.cols.getD i "" ∧ e.source = v))).map
      Edge.proportion).sum = 1 := by
  apply group_proportions_sum_one
  obtain ⟨r, hr, hv⟩ := hocc
  refine ⟨{ sy := t.cols.getD i "", ty := t.cols.getD (i + 1) "",
            s := r.getD i 0, t := r.getD (i + 1) 0 },
    mem_permutations.mpr ⟨i, hcol, r, ?_, rfl⟩, rfl, hv⟩
  rw [hideFilter_nil]
  exact hr

/-- C3 (witness): the proportions of Scenario A's class 2 edges out of the
first period sum to one. -/
theorem C3_witness :
    (((generate_dataframe scenarioA []).filter
        (fun e => decide (e.source_year = scenarioA.cols.getD 0 "" ∧ e.source = 2))).map
      Edge.proportion).sum = 1 :=
  C3_proportions_sum_one scenarioA 0 2 (by decide) (by decide)

/-- C4: for every rectangular table with at least two period columns, the
node-id assignment is a bijection between the distinct node ids and the
distinct (period, class) pairs observed in the (possibly filtered) table:
the node list has no duplicates, contains exactly the observed pairs, its
length is the number of distinct observed pairs, and two node pairs
receive the same id exactly when they are equal. -/
theorem C4_node_id_bijection (t : Table) (hide : List Int)
    (hwf : t.wf) (hk : 2 ≤ t.cols.length) :
    (nodePairList t hide).Nodup ∧
    (∀ p, p ∈ nodePairList t hide ↔ p ∈ observedPairs t hide) ∧
    (nodePairList t hide).length = (observedPairs t hide).toFinset.card ∧
    (∀ p q, p ∈ nodePairList t hide → q ∈ nodePairList t hide →
      (nodeId t hide p = nodeId t hide q ↔ p = q)) := by
  have hmem : ∀ p : String × Int, p ∈ nodePairList t hide ↔ p ∈ observedPairs t hide :=
    fun p => mem_nodePairList_iff_observed hwf hk
  have hnd : (nodePairList t hide).Nodup := nodup_dedupFirst _
  refine ⟨hnd, hmem, ?_, ?_⟩
  · have hfs : (nodePairList t hide).toFinset = (observedPairs t hide).toFinset := by
      ext p
      simp only [List.mem_toFinset]
      exact hmem p
    rw [← hfs, List.toFinset_card_of_nodup hnd]
  · intro p q hp hq
    exact idxOfD_inj hp hq

/-- C4 (witness): the bijection at Scenario A. -/
theorem C4_witness :
    (nodePairList scenarioA []).Nodup ∧
    (∀ p, p ∈ nodePairList scenarioA [] ↔ p ∈ observedPairs scenarioA []) ∧
    (nodePairList scenarioA []).length = (observedPairs scenarioA []).toFinset.card ∧
    (∀ p q, p ∈ nodePairList scenarioA [] → q ∈ nodePairList scenarioA [] →
      (nodeId scenarioA [] p = nodeId scenarioA [] q ↔ p = q)) :=
  C4_node_id_bijection scenarioA [] (by unfold Table.wf; decide) (by decide)

/-- C5 (counterexample): appending a row holding the uncovered class code 9
to Scenario A and running the current pipeline's sampling-stage include
filter silently drops that row, and aggregation proceeds exactly as if the
offending row had never been sampled — no error is produced anywhere. -/
theorem C5_counterexample :
    includeFilter [1, 2, 3, 4] (scenarioA.rows ++ [[9, 1]]) = scenarioA.rows ∧
    generate_dataframe
        ⟨["start", "end"], includeFilter [1, 2, 3, 4] (scenarioA.rows ++ [[9, 1]])⟩ [] =
      generate_dataframe scenarioA [] := by
  exact ⟨by decide, by decide⟩

/-- C5 (amended): the current pipeline's include filter retains exactly the
rows whose every value is a key of the label map, silently dropping the
rest; the legacy compatibility check, when invoked on a table containing a
code with no label entry, fails with an error reporting the sorted,
duplicate-free list of exactly the codes that occur in the table and lack
a label. -/
theorem C5_amended (t : Table) (labels palette : List (Int × String)) (incl : List Int)
    (r : List Int) (v : Int) (hwf : t.wf)
    (hv : ∃ row ∈ t.rows, v ∈ row) (hmiss : v ∉ labels.map Prod.fst) :
    (r ∈ includeFilter incl t.rows ↔ r ∈ t.rows ∧ ∀ x ∈ r, x ∈ incl) ∧
    ∃ lst, check_for_missing_values t labels palette = some (.missingLabels lst) ∧
      lst.Sorted (· ≤ ·) ∧ lst.Nodup ∧
      ∀ c, (c ∈ lst ↔ (∃ row ∈ t.rows, c ∈ row) ∧ c ∉ labels.map Prod.fst) := by
  constructor
  · simp [includeFilter]
  · have hml : ∀ c, c ∈ (List.range t.cols.length).flatMap
        (fun i => get_missing_keys (tableColumn t i) labels) ↔
        (∃ row ∈ t.rows, c ∈ row) ∧ c ∉ labels.map Prod.fst := by
      intro c
      simp only [List.mem_flatMap, List.mem_range, get_missing_keys, List.mem_filter,
        decide_eq_true_eq, tableColumn, List.mem_map]
      constructor
      · rintro ⟨i, hi, ⟨row, hrow, hc⟩, hnk⟩
        refine ⟨⟨row, hrow, ?_⟩, hnk⟩
        have hlen := hwf row hrow
        rw [← hc, List.getD_eq_getElem _ _ (by omega)]
        exact List.getElem_mem _
      · rintro ⟨⟨row, hrow, hc⟩, hnk⟩
        have hlen := hwf row hrow
        obtain ⟨n, hn, he⟩ := List.mem_iff_getElem.mp hc
        refine ⟨n, by omega, ⟨row, hrow, ?_⟩, hnk⟩
        rw [List.getD_eq_getElem _ _ hn]
        exact he
    have hvml : v ∈ (List.range t.cols.length).flatMap
        (fun i => get_missing_keys (tableColumn t i) labels) := (hml v).mpr ⟨hv, hmiss⟩
    have hne : (List.range t.cols.length).flatMap
        (fun i => get_missing_keys (tableColumn t i) labels) ≠ [] :=
      List.ne_nil_of_mem hvml
    refine ⟨npUnique ((List.range t.cols.length).flatMap
        (fun i => get_missing_keys (tableColumn t i) labels)), ?_, ?_, ?_, ?_⟩
    · simp only [check_for_missing_values]
      rw [if_pos hne]
    · exact List.sorted_insertionSort _ _
    · exact (List.perm_insertionSort _ _).nodup_iff.mpr (nodup_dedupFirst _)
    · intro c
      have hmemUnique : c ∈ npUnique ((List.range t.cols.length).flatMap
          (fun i => get_missing_keys (tableColumn t i) labels)) ↔
          c ∈ (List.range t.cols.length).flatMap
            (fun i => get_missing_keys (tableColumn t i) labels) :=
        (List.perm_insertionSort _ _).mem_iff.trans mem_dedupFirst
      rw [hmemUnique]
      exact hml c

/-- C5 (witness): a table whose second row holds code 9 under Scenario A's
label map, with the include-filter characterization instantiated at the
offending row. -/
theorem C5_witness :
    (([9, 1] ∈ includeFilter [1, 2, 3, 4] (Table.mk ["start", "end"] [[1, 1], [9, 1]]).rows ↔
      [9, 1] ∈ (Table.mk ["start", "end"] [[1, 1], [9, 1]]).rows ∧
        ∀ x ∈ [(9 : Int), 1], x ∈ [(1 : Int), 2, 3, 4]) ∧
    ∃ lst, check_for_missing_values (Table.mk ["start", "end"] [[1, 1], [9, 1]])
        labelsA paletteA = some (.missingLabels lst) ∧
      lst.Sorted (· ≤ ·) ∧ lst.Nodup ∧
      ∀ c, (c ∈ lst ↔
        (∃ row ∈ (Table.mk ["start", "end"] [[1, 1], [9, 1]]).rows, c ∈ row) ∧
          c ∉ labelsA.map Prod.fst)) :=
  C5_amended (Table.mk ["start", "end"] [[1, 1], [9, 1]]) labelsA paletteA
    [1, 2, 3, 4] [9, 1] 9 (by unfold Table.wf; decide) (by decide) (by decide)

/-- C6 (counterexample): Scenario A's link labels are not the plain strings
the claim lists; the code wraps the percentage and the class labels in
HTML bold tags. -/
theorem C6_counterexample :
    (generate_dataframe scenarioA []).map (build_link_label labelsA) ≠
      ["100% of A remained A", "50% of B remained B", "50% of B became C",
       "100% of D remained D"] := by
  rw [scenarioA_link_labels]
  decide

/-- C6 (amended): every link label is exactly
`"<b>{pct}</b> of <b>{source_label}</b> {verb} <b>{target_label}</b>"` with
verb "remained" when source equals target and "became" otherwise; on
Scenario A the four labels are the bold variants of the claim's strings. -/
theorem C6_amended :
    (generate_dataframe scenarioA []).map (build_link_label labelsA) =
      ["<b>100%</b> of <b>A</b> remained <b>A</b>",
       "<b>50%</b> of <b>B</b> remained <b>B</b>",
       "<b>50%</b> of <b>B</b> became <b>C</b>",
       "<b>100%</b> of <b>D</b> remained <b>D</b>"] ∧
    ∀ (lbls : List (Int × String)) (e : Edge), build_link_label lbls e =
      "<b>" ++ formatPct e.proportion ++ "</b> of <b>" ++ lookupStr lbls e.source ++
        "</b> " ++ (if e.source = e.target then "remained" else "became") ++
        " <b>" ++ lookupStr lbls e.target ++ "</b>" := by
  refine ⟨scenarioA_link_labels, ?_⟩
  intro lbls e
  rfl

/-- C7: with the label and color maps given in the same key order, the
merge step replaces every class code throughout the data by the first key
carrying an identical (label, color) pair (codes with a first-occurring
pair and codes without a label entry are unchanged), and aggregating the
remapped table yields exactly the edge set of a table that had used the
merged codes throughout. -/
theorem C7_merge_canonical (data : List (List Int)) (labels palette : List (Int × String))
    (cols : List String) (hide : List Int)
    (hkeys : labels.map Prod.fst = palette.map Prod.fst)
    (hnodup : (labels.map Prod.fst).Nodup) :
    (merge_duplicate_classes data labels palette).1 =
      data.map (fun r => r.map (canon (mkTriples labels palette))) ∧
    generate_dataframe ⟨cols, (merge_duplicate_classes data labels palette).1⟩ hide =
      generate_dataframe
        ⟨cols, data.map (fun r => r.map (canon (mkTriples labels palette)))⟩ hide := by
  have h := merge_data_eq_canon data labels palette hkeys hnodup
  exact ⟨h, by rw [h]⟩

/-- C7 (witness): merging duplicate classes 1 and 3 (both labelled "A" with
color "#f00") remaps 3 to 1 throughout and aggregation agrees with the
canonical remapping. -/
theorem C7_witness :
    ((merge_duplicate_classes [[3, 2], [1, 3]] [(1, "A"), (2, "B"), (3, "A")]
        [(1, "#f00"), (2, "#0f0"), (3, "#f00")]).1 =
      [[3, 2], [1, 3]].map (fun r => r.map
        (canon (mkTriples [(1, "A"), (2, "B"), (3, "A")]
          [(1, "#f00"), (2, "#0f0"), (3, "#f00")]))) ∧
    generate_dataframe ⟨["start", "end"],
        (merge_duplicate_classes [[3, 2], [1, 3]] [(1, "A"), (2, "B"), (3, "A")]
          [(1, "#f00"), (2, "#0f0"), (3, "#f00")]).1⟩ [] =
      generate_dataframe ⟨["start", "end"],
        [[3, 2], [1, 3]].map (fun r => r.map
          (canon (mkTriples [(1, "A"), (2, "B"), (3, "A")]
            [(1, "#f00"), (2, "#0f0"), (3, "#f00")])))⟩ []) :=
  C7_merge_canonical [[3, 2], [1, 3]] [(1, "A"), (2, "B"), (3, "A")]
    [(1, "#f00"), (2, "#0f0"), (3, "#f00")] ["start", "end"] [] (by decide) (by decide)

/-- C8: hiding class 2 on Scenario A re-derives the edges from exactly the
rows containing no 2, leaving (1→1, count 3) and (4→4, count 1); emptying
the hidden set restores Scenario A's full four-edge set exactly. -/
theorem C8_hide_and_reset :
    generate_dataframe scenarioA [2] =
      [{ source_year := "start", target_year := "end", source := 1, target := 1,
         changed := 3, total := 3 },
       { source_year := "start", target_year := "end", source := 4, target := 4,
         changed := 1, total := 1 }] ∧
    generate_dataframe scenarioA [] =
      [{ source_year := "start", target_year := "end", source := 1, target := 1,
         changed := 3, total := 3 },
       { source_year := "start", target_year := "end", source := 2, target := 2,
         changed := 1, total := 2 },
       { source_year := "start", target_year := "end", source := 2, target := 3,
         changed := 1, total := 2 },
       { source_year := "start", target_year := "end", source := 4, target := 4,
         changed := 1, total := 1 }] :=
  ⟨by decide, scenarioA_df⟩

/-- C9: whenever the filter state retains no rows at all, re-derivation
yields an empty edge list and an empty node list, and being a total
function it raises nothing. -/
theorem C9_empty_filter_safe (t : Table) (hide : List Int)
    (h : hideFilter hide t.rows = []) :
    generate_dataframe t hide = [] ∧ nodePairList t hide = [] := by
  have hperm : permutations t hide = [] := by
    simp only [permutations, h, List.map_nil]
    simp
  have hdf : generate_dataframe t hide = [] := by
    simp only [generate_dataframe, hperm]
    rfl
  refine ⟨hdf, ?_⟩
  simp only [nodePairList, allPairs, hdf]
  rfl

/-- C9 (witness): hiding every class of Scenario A empties the table and
produces empty node and edge sets. -/
theorem C9_witness :
    hideFilter [1, 2, 4] scenarioA.rows = [] ∧
    generate_dataframe scenarioA [1, 2, 4] = [] ∧
      nodePairList scenarioA [1, 2, 4] = [] :=
  ⟨by decide, C9_empty_filter_safe scenarioA [1, 2, 4] (by decide)⟩

/-- C10: when the region is omitted, sankify uses the geometry of the first
image in the image list as the sampling region; when a region is given it
is passed through unchanged, so downstream sampling always receives a
concrete region. -/
theorem C10_region_fallback (img : EEImage) (rest : List EEImage) (r : String) :
    sankify_region none (img :: rest) = some img.geometry ∧
    sankify_region (some r) (img :: rest) = some r :=
  ⟨rfl, rfl⟩
